import Mathlib

/-!
Verification of the safeshell checkpoint engine (qhkm/safeshell).

Shallow embedding of the core checkpoint lifecycle code:
`internal/checkpoint/storage.go` (BackupFile, copyFile, RestoreFile,
BackupDir with path classifier, CompressDir, DecompressDir),
`internal/checkpoint/checkpoint.go` (Create, AddTag, Compress, Decompress,
EnsureDecompressed), the index (`IndexEntry`, `Index.Add`,
`Index.ListEntries`), the rollback engine (`Rollback`, `RollbackSelective`,
`RollbackToPath`, `RollbackSelectiveToPath`) and the diff engine
(`analyzeDiffs`, `filesMatch` from `internal/cli/diff.go`).

The filesystem is modelled as a total map from path strings to optional
files (content bytes plus permission mode).  Directories are implicit:
`os.MkdirAll` calls always succeed in the model and are elided.  Syscall
failures that the code folds into existing branches (a failed `os.Stat` on
an existing file is treated by the diff engine the same as a missing file)
are not given separate error states.  MD5 digests are modelled abstractly:
the digest of a content is a function of the content.  Hard links are
modelled by their observable result (backup holds the source's bytes and
mode); in-place mutation that would alias through a hard link is outside
the model, matching the round-trip claims' "no external modification"
hypotheses.
-/

namespace SafeShell

/-- Byte string: file content as a list of byte values. -/
abbrev Bytes := List Nat

/-- A regular file: content bytes and permission mode bits. -/
structure File where
  content : Bytes
  mode : Nat
  deriving DecidableEq

/-- The live filesystem: a total map from absolute paths to optional files. -/
abbrev FS := String → Option File

/-- Point update of a filesystem. -/
def upd (fs : FS) (p : String) (v : Option File) : FS :=
  fun q => if q = p then v else fs q

/-- Model of `copyFile` (storage.go): open `src`, create `dst` with
`O_CREATE|O_WRONLY|O_TRUNC` and the source's mode, copy the bytes.
If `dst` already exists the `O_CREATE` mode argument is ignored and the
existing mode is kept; if `src = dst` the truncate empties the file before
the copy reads it. -/
def copyFile (fs : FS) (src dst : String) : Option FS :=
  match fs src with
  | none => none
  | some f =>
    if src = dst then
      some (upd fs dst (some { content := [], mode := f.mode }))
    else
      let newMode := match fs dst with
        | some old => old.mode
        | none => f.mode
      some (upd fs dst (some { content := f.content, mode := newMode }))

/-- Model of `BackupFile` (storage.go): ensure the destination directory
exists, try a hard link (`os.Link` fails if `dst` exists or the link is
impossible, e.g. cross-device — the `linkOk` oracle), else fall back to
`copyFile`.  A successful link gives the backup the source's bytes and
mode (second name for the same data). -/
def BackupFile (linkOk : Bool) (fs : FS) (src dst : String) : Option FS :=
  match fs src with
  | none => none
  | some f =>
    if linkOk ∧ fs dst = none then
      some (upd fs dst (some f))
    else
      copyFile fs src dst

/-- Model of `RestoreFile` (storage.go): ensure the original's directory
exists, remove any existing file at `originalPath`, then `copyFile` the
backup over it.  Returns the filesystem after the attempt together with a
success flag; on a failed copy the prior removal persists. -/
def RestoreFile (fs : FS) (backupPath originalPath : String) : FS × Bool :=
  let fs1 := upd fs originalPath none
  match fs1 backupPath with
  | none => (fs1, false)
  | some f => (upd fs1 originalPath (some f), true)

/-- Model of `os.Chmod`: set the mode bits of an existing file. -/
def chmod (fs : FS) (p : String) (m : Nat) : FS :=
  fun q => if q = p then (fs p).map (fun f => { f with mode := m }) else fs q

/-- `FileEntry` (manifest.go): one recorded file of a checkpoint. -/
structure FileEntry where
  originalPath : String
  backupPath : String
  mode : Nat
  size : Nat
  isDir : Bool
  deriving DecidableEq

/-- `Manifest` (manifest.go): the persisted record of one checkpoint. -/
structure Manifest where
  id : String
  timestamp : Nat
  command : String
  workingDir : String
  files : List FileEntry
  rolledBack : Bool
  tags : List String
  note : String
  compressed : Bool
  compressedSize : Nat
  deriving DecidableEq

/-- Runtime state of one checkpoint: the live filesystem (which, when the
checkpoint is not compressed, contains the backup tree at the recorded
`backupPath` values), the contents of `files.tar.gz` keyed by backup path
(empty unless compressed), and the manifest (the in-memory copy; every
modelled mutation is persisted synchronously, so the persisted form
coincides with it). -/
structure CpState where
  disk : FS
  archive : FS
  manifest : Manifest

/-- Model of `Decompress` (checkpoint.go): extract the archive into the
files directory (archive entries overwrite any loose file at the same
path, `O_TRUNC`), remove the archive, clear the `compressed` flag and
persist the manifest. -/
def decompressState (s : CpState) : CpState :=
  { disk := fun p => match s.archive p with
      | some f => some f
      | none => s.disk p
    archive := fun _ => none
    manifest := { s.manifest with compressed := false, compressedSize := 0 } }

/-- Model of `EnsureDecompressed` (checkpoint.go): decompress only when the
manifest says the checkpoint is compressed. -/
def ensureDecompressed (s : CpState) : CpState :=
  if s.manifest.compressed then decompressState s else s

/-- One iteration of the restore loop shared by the rollback variants
(rollback.go): stat the backup (missing backup counts as failed), restore
it over `target`, then `os.Chmod` the recorded mode (a chmod failure only
warns, so the model's chmod is total). -/
def restoreStep (disk : FS) (backupPath target : String) (mode : Nat) :
    FS × Bool :=
  if disk backupPath = none then (disk, false)
  else
    let dr := RestoreFile disk backupPath target
    if dr.2 then (chmod dr.1 target mode, true) else (dr.1, false)

/-- The restore loop of `Rollback`/`RollbackSelective` (rollback.go):
directories are skipped, entries outside the caller's selection are
skipped, every other entry is attempted and counted as restored or
failed; no failure aborts the loop.  State is (filesystem, restored,
failed). -/
def rollbackLoopAux (keep : FileEntry → Bool) :
    List FileEntry → FS × Nat × Nat → FS × Nat × Nat
  | [], st => st
  | e :: rest, st =>
    if e.isDir then rollbackLoopAux keep rest st
    else if keep e then
      let d2 := restoreStep st.1 e.backupPath e.originalPath e.mode
      rollbackLoopAux keep rest
        (if d2.2 then (d2.1, st.2.1 + 1, st.2.2) else (d2.1, st.2.1, st.2.2 + 1))
    else rollbackLoopAux keep rest st

/-- Outcome of a rollback call: the returned error, or success. -/
inductive RbOutcome
  | alreadyRolledBack
  | someFailed (restored failed : Nat)
  | ok (restored : Nat)
  deriving DecidableEq

/-- Model of `Rollback` (rollback.go): reject if already rolled back;
auto-decompress if compressed (and reload the checkpoint); restore every
non-directory entry; then set `rolledBack := true` and persist — the full
restore is the only path that sets the flag. -/
def Rollback (s : CpState) : CpState × RbOutcome :=
  if s.manifest.rolledBack then (s, .alreadyRolledBack)
  else
    let s1 := ensureDecompressed s
    let st := rollbackLoopAux (fun _ => true) s1.manifest.files (s1.disk, 0, 0)
    ({ s1 with disk := st.1, manifest := { s1.manifest with rolledBack := true } },
     if 0 < st.2.2 then .someFailed st.2.1 st.2.2 else .ok st.2.1)

/-- Model of `RollbackSelective` (rollback.go): same rejection and
decompression, restore only entries whose original path is in the caller's
list, and never set `rolledBack`. -/
def RollbackSelective (s : CpState) (filePaths : List String) :
    CpState × RbOutcome :=
  if s.manifest.rolledBack then (s, .alreadyRolledBack)
  else
    let s1 := ensureDecompressed s
    let st := rollbackLoopAux (fun e => decide (e.originalPath ∈ filePaths))
      s1.manifest.files (s1.disk, 0, 0)
    ({ s1 with disk := st.1 },
     if 0 < st.2.2 then .someFailed st.2.1 st.2.2 else .ok st.2.1)

/-- Target path computation of `RollbackToPath` (rollback.go): original
paths under the checkpoint's working directory keep their relative
structure below `destPath`; paths outside it contribute only their base
name. -/
def toPathTarget (workingDir destPath orig : String) : String :=
  let rel :=
    if workingDir.isPrefixOf orig then
      let r := orig.drop workingDir.length
      if "/".isPrefixOf r then r.drop 1 else r
    else
      match (orig.splitOn "/").getLast? with
      | some b => b
      | none => orig
  if rel = "" then destPath else destPath ++ "/" ++ rel

/-- The restore loop of the to-path variants: like `rollbackLoopAux` but
restoring to the relocated target path. -/
def toPathLoopAux (workingDir destPath : String) (keep : FileEntry → Bool) :
    List FileEntry → FS × Nat × Nat → FS × Nat × Nat
  | [], st => st
  | e :: rest, st =>
    if e.isDir then toPathLoopAux workingDir destPath keep rest st
    else if keep e then
      let tgt := toPathTarget workingDir destPath e.originalPath
      let d2 := restoreStep st.1 e.backupPath tgt e.mode
      toPathLoopAux workingDir destPath keep rest
        (if d2.2 then (d2.1, st.2.1 + 1, st.2.2) else (d2.1, st.2.1, st.2.2 + 1))
    else toPathLoopAux workingDir destPath keep rest st

/-- Model of `RollbackToPath` (rollback.go): no rolled-back rejection,
auto-decompress, restore all non-directory entries to the alternate root,
never set `rolledBack`. -/
def RollbackToPath (s : CpState) (destPath : String) : CpState × RbOutcome :=
  let s1 := ensureDecompressed s
  let st := toPathLoopAux s1.manifest.workingDir destPath (fun _ => true)
    s1.manifest.files (s1.disk, 0, 0)
  ({ s1 with disk := st.1 },
   if 0 < st.2.2 then .someFailed st.2.1 st.2.2 else .ok st.2.1)

/-- Model of `RollbackSelectiveToPath` (rollback.go): the selective
variant of `RollbackToPath`; also no rolled-back rejection and never sets
`rolledBack`. -/
def RollbackSelectiveToPath (s : CpState) (filePaths : List String)
    (destPath : String) : CpState × RbOutcome :=
  let s1 := ensureDecompressed s
  let st := toPathLoopAux s1.manifest.workingDir destPath
    (fun e => decide (e.originalPath ∈ filePaths)) s1.manifest.files (s1.disk, 0, 0)
  ({ s1 with disk := st.1 },
   if 0 < st.2.2 then .someFailed st.2.1 st.2.2 else .ok st.2.1)

/-- Abstract model of the MD5 digest used by `fileHash` (diff.go): a
deterministic function of the content.  Collisions are not modelled. -/
def contentDigest (c : Bytes) : Bytes := c

/-- Model of `filesMatch` (diff.go): compare on-disk sizes first
(different sizes are definitely different), then compare content digests;
any stat or read failure yields false. -/
def filesMatch (fs : FS) (p1 p2 : String) : Bool :=
  match fs p1, fs p2 with
  | some f1, some f2 =>
    if f1.content.length = f2.content.length then
      contentDigest f1.content == contentDigest f2.content
    else false
  | _, _ => false

/-- Diff classification of one file (diff.go `FileDiff.Status`). -/
inductive DiffStatus
  | deleted
  | modified
  | unchanged
  deriving DecidableEq

/-- `FileDiff` (diff.go): one row of the diff report. -/
structure FileDiff where
  path : String
  status : DiffStatus
  backupSize : Nat
  currentSize : Nat
  backupPath : String
  deriving DecidableEq

/-- The per-entry classification inside `analyzeDiffs` (diff.go): a
missing original is `deleted` (the code folds stat errors into the same
branch); otherwise `unchanged` exactly when `filesMatch` accepts the
backup copy against the current file, else `modified`. -/
def analyzeEntry (fs : FS) (e : FileEntry) : FileDiff :=
  match fs e.originalPath with
  | none =>
    { path := e.originalPath, status := .deleted, backupSize := e.size,
      currentSize := 0, backupPath := e.backupPath }
  | some cur =>
    { path := e.originalPath,
      status := if filesMatch fs e.backupPath e.originalPath then .unchanged
                else .modified,
      backupSize := e.size, currentSize := cur.content.length,
      backupPath := e.backupPath }

/-- Model of `analyzeDiffs` (diff.go): classify every non-directory
manifest entry against the live filesystem. -/
def analyzeDiffs (fs : FS) (m : Manifest) : List FileDiff :=
  (m.files.filter (fun e => !e.isDir)).map (analyzeEntry fs)

/-- Model of the diff command body `runDiff` (diff.go): it analyzes the
checkpoint's entries directly against the current disk — it never calls
`EnsureDecompressed`. -/
def runDiffModel (s : CpState) : List FileDiff :=
  analyzeDiffs s.disk s.manifest

/-- `IndexEntry` (index): the lightweight projection of a manifest. -/
structure IndexEntry where
  id : String
  timestamp : Nat
  sequence : Nat
  command : String
  fileCount : Nat
  totalSize : Nat
  rolledBack : Bool
  compressed : Bool
  deriving DecidableEq

/-- The swap condition of the double loop in `Index.ListEntries`: entry
`ej` moves before `ei` when its timestamp is strictly later, or equal
with a strictly larger sequence. -/
def swapCond (ei ej : IndexEntry) : Bool :=
  if ei.timestamp < ej.timestamp then true
  else if ej.timestamp = ei.timestamp ∧ ei.sequence < ej.sequence then true
  else false

/-- Inner pass of the exchange sort in `Index.ListEntries`: thread the
current occupant of position `i` through positions `i+1 .. n-1`, swapping
whenever the later entry should come first; returns the final occupant of
position `i` and the remaining entries in their resulting order. -/
def selectPass (a : IndexEntry) : List IndexEntry → IndexEntry × List IndexEntry
  | [] => (a, [])
  | b :: rest =>
    if swapCond a b then
      let (m, r) := selectPass b rest
      (m, a :: r)
    else
      let (m, r) := selectPass a rest
      (m, b :: r)

theorem selectPass_length (a : IndexEntry) (l : List IndexEntry) :
    (selectPass a l).2.length = l.length := by
  induction l generalizing a with
  | nil => rfl
  | cons b rest ih =>
    by_cases h : swapCond a b = true <;>
      simp [selectPass, h, ih]

/-- The full double loop of `Index.ListEntries` (an exchange sort by
timestamp descending with sequence-descending tiebreak). -/
def exchangeSort : List IndexEntry → List IndexEntry
  | [] => []
  | a :: rest =>
    (selectPass a rest).1 :: exchangeSort (selectPass a rest).2
termination_by l => l.length
decreasing_by simp [selectPass_length]

/-- The index: entries (the map from ids, modelled as a list in arbitrary
iteration order) plus the persisted monotonic sequence counter. -/
structure Index where
  entries : List IndexEntry
  nextSequence : Nat
  deriving DecidableEq

/-- Model of `Index.ListEntries`: collect the map values (in arbitrary
order) and run the exchange sort. -/
def ListEntries (idx : Index) : List IndexEntry :=
  exchangeSort idx.entries

/-- Model of `Index.Add`: project the manifest (file count and total size
over non-directory entries), assign the next monotonic sequence number,
store under the checkpoint id (replacing any previous entry with that id)
and persist. -/
def indexAdd (idx : Index) (m : Manifest) : Index :=
  let fileCount := (m.files.filter (fun e => !e.isDir)).length
  let totalSize := ((m.files.filter (fun e => !e.isDir)).map (·.size)).sum
  let entry : IndexEntry :=
    { id := m.id, timestamp := m.timestamp, sequence := idx.nextSequence,
      command := m.command, fileCount := fileCount, totalSize := totalSize,
      rolledBack := m.rolledBack, compressed := m.compressed }
  { entries := idx.entries.filter (fun e => e.id ≠ m.id) ++ [entry],
    nextSequence := idx.nextSequence + 1 }

/-- Model of `GetLatest` (checkpoint.go): take the head of
`Index.ListEntries` (already sorted newest first) and return its id. -/
def getLatestId (idx : Index) : Option String :=
  (ListEntries idx).head?.map (·.id)

/-- Store state relevant to `AddTag`: the persisted manifest (what `Get`
loads) and the index. -/
structure StoreState where
  persisted : Manifest
  index : Index

/-- Model of `AddTag` (checkpoint.go): load the manifest; if the tag is
already present return nil before saving or touching the index; else
append the tag, persist the manifest and update the index projection. -/
def AddTag (st : StoreState) (tag : String) : StoreState :=
  if tag ∈ st.persisted.tags then st
  else
    let m := { st.persisted with tags := st.persisted.tags ++ [tag] }
    { persisted := m, index := indexAdd st.index m }

/-- A file-tree entry as seen by `filepath.Walk` during compression:
either a directory or a regular file with its content. -/
inductive TreeEntry
  | dirE (mode : Nat)
  | fileE (mode : Nat) (content : Bytes)
  deriving DecidableEq

/-- A tar header plus payload as written by `CompressDir` (storage.go):
relative name, mode bits, type flag, and the file bytes (empty for
directories). -/
structure TarItem where
  name : String
  mode : Nat
  isDirFlag : Bool
  content : Bytes
  deriving DecidableEq

/-- The tar header plus payload `CompressDir` writes for one walked
entry: the relative path becomes the header name, the file-info mode and
type are recorded, file bytes are streamed after the header. -/
def tarOf (pe : String × TreeEntry) : TarItem :=
  match pe.2 with
  | .dirE m => { name := pe.1, mode := m, isDirFlag := true, content := [] }
  | .fileE m c => { name := pe.1, mode := m, isDirFlag := false, content := c }

/-- Model of `CompressDir` (storage.go): walk the source tree (given as
its walk listing of relative paths, the root "." entry already excluded)
and stream one tar header plus contents per entry; afterwards the
original tree is removed. -/
def CompressDir (tree : List (String × TreeEntry)) : List TarItem :=
  tree.map tarOf

/-- One extraction step of `DecompressDir` (storage.go): a directory
header is `os.MkdirAll` with the header mode (a no-op when the directory
already exists), a file header creates/truncates the file with the
header mode and writes the bytes. -/
def extractStep (acc : String → Option TreeEntry) (h : TarItem) :
    String → Option TreeEntry :=
  fun p =>
    if p = h.name then
      if h.isDirFlag then
        match acc p with
        | some e => some e
        | none => some (.dirE h.mode)
      else some (.fileE h.mode h.content)
    else acc p

/-- Model of `DecompressDir` (storage.go): replay the archive in order
into an empty destination directory.  The result is the extracted tree
as a map from relative path to entry. -/
def DecompressDir (archive : List TarItem) : String → Option TreeEntry :=
  archive.foldl extractStep (fun _ => none)

/-- Lookup in a walk listing (the tree before compression). -/
def lookupTree (tree : List (String × TreeEntry)) (p : String) :
    Option TreeEntry :=
  (tree.find? (fun pe => pe.1 = p)).map (·.2)

/-- The fixed exclusion list `DefaultExclusions` (storage.go). -/
def DefaultExclusions : List String :=
  [".build", "build", "dist", "out", "target",
   "node_modules", "vendor", ".venv", "venv", "__pycache__", ".pytest_cache",
   ".idea", ".vscode",
   ".git", ".svn", ".hg",
   ".DS_Store", "Thumbs.db",
   ".cache", ".npm", ".yarn", ".cargo", "DerivedData",
   ".safeshell"]

/-- Model of `shouldExclude` (storage.go): the path's base name is on the
exclusion list. -/
def shouldExclude (base : String) : Bool :=
  base ∈ DefaultExclusions

/-- A node of the original file tree walked by `Create`/`BackupDir`.
Symlinks are kept distinct because the classifier always skips them and
`filepath.Walk` never follows them. -/
inductive FsNode
  | fileN (name : String) (mode : Nat) (size : Nat)
  | dirN (name : String) (mode : Nat) (children : List FsNode)
  | linkN (name : String)

/-- Path concatenation used by the walk models. -/
def joinPath (pre name : String) : String :=
  if pre = "" then name else pre ++ "/" ++ name

mutual

/-- Model of the `BackupDir` walk (storage.go): the set of paths that end
up in the backup tree.  `shouldSkipPath` skips symlinks, skips excluded
base names (pruning the whole subtree when the excluded entry is a
directory), and prunes `.framework` directories; everything else is
mirrored (directories) or handed to `BackupFile` (files). -/
def backupWalk (pre : String) : FsNode → List String
  | .linkN _ => []
  | .fileN name _ _ =>
    if shouldExclude name then [] else [joinPath pre name]
  | .dirN name _ children =>
    if shouldExclude name then []
    else if name.endsWith ".framework" then []
    else joinPath pre name :: backupWalkList (joinPath pre name) children

/-- `backupWalk` mapped over a children list. -/
def backupWalkList (pre : String) : List FsNode → List String
  | [] => []
  | c :: cs => backupWalk pre c ++ backupWalkList pre cs

end

mutual

/-- Every path in a subtree (used to describe what a pruned exclusion
removes). -/
def allPaths (pre : String) : FsNode → List String
  | .linkN name => [joinPath pre name]
  | .fileN name _ _ => [joinPath pre name]
  | .dirN name _ children =>
    joinPath pre name :: allPathsList (joinPath pre name) children

/-- `allPaths` mapped over a children list. -/
def allPathsList (pre : String) : List FsNode → List String
  | [] => []
  | c :: cs => allPaths pre c ++ allPathsList pre cs

end

mutual

/-- The original paths the classifier (or the `BackupDir` pruning) skips:
symlinks, excluded files, and entire subtrees of excluded or `.framework`
directories. -/
def classifierSkipped (pre : String) : FsNode → List String
  | .linkN name => [joinPath pre name]
  | .fileN name _ _ =>
    if shouldExclude name then [joinPath pre name] else []
  | .dirN name m children =>
    if shouldExclude name ∨ name.endsWith ".framework" then
      allPaths pre (.dirN name m children)
    else classifierSkippedList (joinPath pre name) children

/-- `classifierSkipped` mapped over a children list. -/
def classifierSkippedList (pre : String) : List FsNode → List String
  | [] => []
  | c :: cs => classifierSkipped pre c ++ classifierSkippedList pre cs

end

mutual

/-- Model of the manifest-recording walk inside `Create`
(checkpoint.go lines 98-106): `filepath.Walk` over the original
directory, recording one FileEntry per non-directory node — without
consulting the classifier.  Symlinks are non-directories to `Lstat`, so
they are recorded too, and the walk descends into excluded directories. -/
def manifestWalk (pre : String) : FsNode → List FileEntry
  | .linkN name =>
    [{ originalPath := joinPath pre name, backupPath := joinPath pre name,
       mode := 0, size := 0, isDir := false }]
  | .fileN name m sz =>
    [{ originalPath := joinPath pre name, backupPath := joinPath pre name,
       mode := m, size := sz, isDir := false }]
  | .dirN name _ children =>
    manifestWalkList (joinPath pre name) children

/-- `manifestWalk` mapped over a children list. -/
def manifestWalkList (pre : String) : List FsNode → List FileEntry
  | [] => []
  | c :: cs => manifestWalk pre c ++ manifestWalkList pre cs

end

/-- The `os.Stat` result for one target path inside `Create`
(checkpoint.go lines 75-82). -/
inductive StatRes
  | missing
  | statErr
  | okTarget
  deriving DecidableEq

/-- One target path handed to `Create`: its stat result, whether the
backup of it (`BackupFile`/`BackupDir`) succeeds, and the manifest
entries that would be recorded on success. -/
structure Target where
  stat : StatRes
  backupOk : Bool
  entries : List FileEntry
  deriving DecidableEq

/-- The errors that make a whole `Create` call fail. -/
inductive CreateErr
  | mkdirFailed
  | statFailed
  | saveFailed
  deriving DecidableEq

/-- The per-target loop of `Create` (checkpoint.go lines 67-115): a
missing target is skipped silently; a stat failure returns an error for
the whole call; a backup failure is a warning and the target is skipped;
a successful backup records the target's entries. -/
def processTargets : List Target → Except CreateErr (List FileEntry)
  | [] => .ok []
  | t :: rest =>
    match t.stat with
    | .missing => processTargets rest
    | .statErr => .error .statFailed
    | .okTarget =>
      if t.backupOk then
        match processTargets rest with
        | .error e => .error e
        | .ok es => .ok (t.entries ++ es)
      else processTargets rest

/-- Model of `Create` (checkpoint.go): creating the checkpoint directory
and persisting the manifest are the setup-level steps whose failure
aborts the call; in between runs the per-target loop. -/
def createModel (mkdirOk saveOk : Bool) (targets : List Target) :
    Except CreateErr (List FileEntry) :=
  if !mkdirOk then .error .mkdirFailed
  else
    match processTargets targets with
    | .error e => .error e
    | .ok es => if saveOk then .ok es else .error .saveFailed

/-! ### Supporting lemmas -/

theorem ensureDecompressed_rolledBack (s : CpState) :
    (ensureDecompressed s).manifest.rolledBack = s.manifest.rolledBack := by
  unfold ensureDecompressed decompressState
  split <;> rfl

/-- Copy of a state with the rolled-back flag replaced. -/
def setRolled (s : CpState) (b : Bool) : CpState :=
  { s with manifest := { s.manifest with rolledBack := b } }

/-! ### Example states used by witnesses and counterexamples -/

/-- Example file: two bytes, mode 0644. -/
def exFile : File := { content := [104, 105], mode := 420 }

/-- Example manifest entry for a single backed-up file. -/
def exEntry : FileEntry :=
  { originalPath := "/w/a.txt", backupPath := "/cp/files/w/a.txt",
    mode := 420, size := 2, isDir := false }

/-- Example base manifest. -/
def exManifest : Manifest :=
  { id := "cp1", timestamp := 10, command := "rm a.txt", workingDir := "/w",
    files := [exEntry], rolledBack := false, tags := [], note := "",
    compressed := false, compressedSize := 0 }

/-- Example disk with the live file and its backup both present. -/
def exDisk : FS := fun p =>
  if p = "/cp/files/w/a.txt" then some exFile
  else if p = "/w/a.txt" then some exFile
  else none

/-- Example uncompressed checkpoint state. -/
def exState : CpState :=
  { disk := exDisk, archive := fun _ => none, manifest := exManifest }

/-- Example state already marked rolled back. -/
def exStateRB : CpState := setRolled exState true

/-! ### Claim C2 -/

/-- Claim C2: a checkpoint whose manifest has rolledBack = true makes a
full Rollback return the AlreadyRolledBack error with the state (disk
and manifest) completely unchanged; and the rolled-back flag is set only
by a full Rollback — RollbackSelective, RollbackToPath and
RollbackSelectiveToPath leave it exactly as it was, for every checkpoint
state and every argument list, while a full Rollback on a
not-yet-rolled-back checkpoint does set it. -/
theorem rolledBack_flag_discipline :
    (∀ s : CpState, s.manifest.rolledBack = true →
      Rollback s = (s, RbOutcome.alreadyRolledBack)) ∧
    (∀ (s : CpState) (ps : List String),
      ((RollbackSelective s ps).1).manifest.rolledBack = s.manifest.rolledBack) ∧
    (∀ (s : CpState) (d : String),
      ((RollbackToPath s d).1).manifest.rolledBack = s.manifest.rolledBack) ∧
    (∀ (s : CpState) (ps : List String) (d : String),
      ((RollbackSelectiveToPath s ps d).1).manifest.rolledBack =
        s.manifest.rolledBack) ∧
    (∀ s : CpState, s.manifest.rolledBack = false →
      ((Rollback s).1).manifest.rolledBack = true) := by
  refine ⟨?_, ?_, ?_, ?_, ?_⟩
  · intro s h
    simp [Rollback, h]
  · intro s ps
    by_cases h : s.manifest.rolledBack
    · simp [RollbackSelective, h]
    · simp only [RollbackSelective, h, if_false, Bool.false_eq_true]
      rw [ensureDecompressed_rolledBack]
      simpa using h
  · intro s d
    simp only [RollbackToPath]
    simpa using ensureDecompressed_rolledBack s
  · intro s ps d
    simp only [RollbackSelectiveToPath]
    simpa using ensureDecompressed_rolledBack s
  · intro s h
    simp [Rollback, h]

/-- Witness for C2 at the concrete example states. -/
theorem rolledBack_flag_discipline_witness :
    Rollback exStateRB = (exStateRB, RbOutcome.alreadyRolledBack) ∧
    ((RollbackSelective exState ["/w/a.txt"]).1).manifest.rolledBack = false ∧
    ((Rollback exState).1).manifest.rolledBack = true :=
  ⟨rolledBack_flag_discipline.1 exStateRB rfl,
   (rolledBack_flag_discipline.2.1 exState ["/w/a.txt"]).trans rfl,
   rolledBack_flag_discipline.2.2.2.2 exState rfl⟩

/-! ### Claim C9 -/

/-- Claim C9 (implicit): RollbackSelective also rejects an already
rolled-back checkpoint with the AlreadyRolledBack error and restores
nothing, whereas RollbackToPath and RollbackSelectiveToPath perform no
such check: they never produce the AlreadyRolledBack outcome and their
result (restored disk and outcome) is independent of the rolledBack
flag. -/
theorem selective_rejects_toPath_ignores :
    (∀ (s : CpState) (ps : List String), s.manifest.rolledBack = true →
      RollbackSelective s ps = (s, RbOutcome.alreadyRolledBack)) ∧
    (∀ (s : CpState) (d : String),
      (RollbackToPath s d).2 ≠ RbOutcome.alreadyRolledBack ∧
      ∀ b : Bool,
        ((RollbackToPath (setRolled s b) d).1).disk = ((RollbackToPath s d).1).disk ∧
        (RollbackToPath (setRolled s b) d).2 = (RollbackToPath s d).2) ∧
    (∀ (s : CpState) (ps : List String) (d : String),
      (RollbackSelectiveToPath s ps d).2 ≠ RbOutcome.alreadyRolledBack ∧
      ∀ b : Bool,
        ((RollbackSelectiveToPath (setRolled s b) ps d).1).disk =
          ((RollbackSelectiveToPath s ps d).1).disk ∧
        (RollbackSelectiveToPath (setRolled s b) ps d).2 =
          (RollbackSelectiveToPath s ps d).2) := by
  refine ⟨?_, ?_, ?_⟩
  · intro s ps h
    simp [RollbackSelective, h]
  · intro s d
    constructor
    · simp only [RollbackToPath]
      split <;> simp
    · intro b
      by_cases h : s.manifest.compressed <;>
        simp [RollbackToPath, ensureDecompressed, decompressState, setRolled, h]
  · intro s ps d
    constructor
    · simp only [RollbackSelectiveToPath]
      split <;> simp
    · intro b
      by_cases h : s.manifest.compressed <;>
        simp [RollbackSelectiveToPath, ensureDecompressed, decompressState,
          setRolled, h]

/-- Witness for C9 at the concrete example states. -/
theorem selective_rejects_toPath_ignores_witness :
    RollbackSelective exStateRB ["/w/a.txt"] =
      (exStateRB, RbOutcome.alreadyRolledBack) ∧
    (RollbackToPath exStateRB "/alt").2 ≠ RbOutcome.alreadyRolledBack ∧
    (RollbackSelectiveToPath exStateRB ["/w/a.txt"] "/alt").2 ≠
      RbOutcome.alreadyRolledBack :=
  ⟨selective_rejects_toPath_ignores.1 exStateRB ["/w/a.txt"] rfl,
   (selective_rejects_toPath_ignores.2.1 exStateRB "/alt").1,
   (selective_rejects_toPath_ignores.2.2 exStateRB ["/w/a.txt"] "/alt").1⟩

/-! ### Claim C10 -/

/-- Claim C10 (implicit): AddTag is idempotent — when the tag is already
present in the manifest's tag list the call succeeds and leaves the
persisted manifest and the index completely unchanged (it returns before
saving or updating the index), applying AddTag twice equals applying it
once, and a tag list without duplicates never acquires one. -/
theorem addTag_idempotent :
    (∀ (st : StoreState) (tag : String),
      tag ∈ st.persisted.tags → AddTag st tag = st) ∧
    (∀ (st : StoreState) (tag : String),
      AddTag (AddTag st tag) tag = AddTag st tag) ∧
    (∀ (st : StoreState) (tag : String),
      st.persisted.tags.Nodup → (AddTag st tag).persisted.tags.Nodup) := by
  refine ⟨?_, ?_, ?_⟩
  · intro st tag h
    simp [AddTag, h]
  · intro st tag
    by_cases h : tag ∈ st.persisted.tags
    · simp [AddTag, h]
    · simp [AddTag, h]
  · intro st tag hnd
    by_cases h : tag ∈ st.persisted.tags
    · simpa [AddTag, h] using hnd
    · have hn : (st.persisted.tags ++ [tag]).Nodup := by
        rw [List.nodup_append]
        refine ⟨hnd, List.nodup_singleton tag, ?_⟩
        intro a ha hb
        rw [List.mem_singleton] at hb
        subst hb
        exact h ha
      simpa [AddTag, h] using hn

/-- Witness for C10 at a concrete store state: the tag "keep" is already
present, so AddTag changes nothing. -/
theorem addTag_idempotent_witness :
    AddTag
      { persisted := { exManifest with tags := ["keep"] },
        index := { entries := [], nextSequence := 0 } } "keep" =
      { persisted := { exManifest with tags := ["keep"] },
        index := { entries := [], nextSequence := 0 } } :=
  addTag_idempotent.1 _ "keep" (by simp)

/-! ### Claim C5 -/

theorem filesMatch_true_iff (fs : FS) (p1 p2 : String) :
    filesMatch fs p1 p2 = true ↔
      ∃ f1 f2, fs p1 = some f1 ∧ fs p2 = some f2 ∧
        f1.content.length = f2.content.length ∧
        contentDigest f1.content = contentDigest f2.content := by
  unfold filesMatch
  cases h1 : fs p1 with
  | none => simp
  | some f1 =>
    cases h2 : fs p2 with
    | none => simp
    | some f2 =>
      by_cases hl : f1.content.length = f2.content.length
      · simp [hl]
      · simp [hl]

/-- Claim C5: for every non-directory FileEntry, the diff engine
classifies it deleted exactly when the original path no longer exists;
it declares unchanged only when the current size equals the backup
copy's size and the content digests of the two agree; and a file whose
backup is non-empty but whose current content was truncated to zero
bytes is classified modified, not deleted or unchanged. -/
theorem diff_classification (fs : FS) (m : Manifest) (e : FileEntry)
    (hmem : e ∈ m.files) (hdir : e.isDir = false) :
    analyzeEntry fs e ∈ analyzeDiffs fs m ∧
    ((analyzeEntry fs e).status = DiffStatus.deleted ↔
      fs e.originalPath = none) ∧
    ((analyzeEntry fs e).status = DiffStatus.unchanged →
      ∃ fb fo, fs e.backupPath = some fb ∧ fs e.originalPath = some fo ∧
        fb.content.length = fo.content.length ∧
        contentDigest fb.content = contentDigest fo.content) ∧
    (∀ fb fo, fs e.backupPath = some fb → fb.content ≠ [] →
      fs e.originalPath = some fo → fo.content = [] →
      (analyzeEntry fs e).status = DiffStatus.modified) := by
  refine ⟨?_, ?_, ?_, ?_⟩
  · exact List.mem_map_of_mem _ (List.mem_filter.2 ⟨hmem, by simp [hdir]⟩)
  · unfold analyzeEntry
    cases h : fs e.originalPath with
    | none => simp
    | some cur =>
      by_cases hm : filesMatch fs e.backupPath e.originalPath = true
      · simp [hm]
      · simp [hm]
  · intro hu
    unfold analyzeEntry at hu
    cases h : fs e.originalPath with
    | none => simp [h] at hu
    | some cur =>
      rw [h] at hu
      by_cases hm : filesMatch fs e.backupPath e.originalPath = true
      · obtain ⟨fb, fo, h1, h2, h3, h4⟩ := (filesMatch_true_iff fs _ _).1 hm
        exact ⟨fb, fo, h1, h.symm.trans h2, h3, h4⟩
      · simp [hm] at hu
  · intro fb fo hb hne ho hz
    unfold analyzeEntry
    rw [ho]
    have hlen : fb.content.length ≠ fo.content.length := by
      rw [hz]
      simpa [List.length_eq_zero] using hne
    have hm : filesMatch fs e.backupPath e.originalPath = false := by
      unfold filesMatch
      rw [hb, ho]
      simp [hlen]
    simp [hm]

/-- Witness for C5: the example entry with its backup present and the
live file truncated to zero bytes is classified modified. -/
theorem diff_classification_witness :
    (analyzeEntry
      (fun p => if p = "/cp/files/w/a.txt" then some exFile
                else if p = "/w/a.txt" then some { content := [], mode := 420 }
                else none)
      exEntry).status = DiffStatus.modified :=
  (diff_classification _ exManifest exEntry (by simp [exManifest]) rfl).2.2.2
    exFile { content := [], mode := 420 } rfl (by simp [exFile]) rfl rfl

/-! ### Claim C6 -/

/-- The order `ListEntries` promises: `x` may precede `y` when `x`'s
timestamp is later, or timestamps are equal and `x`'s sequence is at
least `y`'s — i.e. (timestamp descending, sequence descending). -/
def geKey (x y : IndexEntry) : Prop :=
  y.timestamp < x.timestamp ∨
    (x.timestamp = y.timestamp ∧ y.sequence ≤ x.sequence)

theorem swapCond_false_iff (x y : IndexEntry) :
    swapCond x y = false ↔ geKey x y := by
  unfold swapCond geKey
  split_ifs with h1 h2 <;> simp <;> omega

theorem swapCond_true_geKey {x y : IndexEntry} (h : swapCond x y = true) :
    geKey y x := by
  unfold swapCond at h
  unfold geKey
  by_cases h1 : x.timestamp < y.timestamp
  · omega
  · rw [if_neg h1] at h
    by_cases h2 : y.timestamp = x.timestamp ∧ x.sequence < y.sequence
    · omega
    · rw [if_neg h2] at h
      simp at h

theorem geKey_trans {a b c : IndexEntry} (h1 : geKey a b) (h2 : geKey b c) :
    geKey a c := by
  unfold geKey at *
  omega

theorem geKey_refl (a : IndexEntry) : geKey a a := by
  unfold geKey
  omega

theorem selectPass_spec (l : List IndexEntry) (a : IndexEntry) :
    geKey (selectPass a l).1 a ∧
      ∀ x ∈ (selectPass a l).2, geKey (selectPass a l).1 x := by
  induction l generalizing a with
  | nil => exact ⟨geKey_refl a, by simp [selectPass]⟩
  | cons b rest ih =>
    by_cases h : swapCond a b = true
    · have hba : geKey b a := swapCond_true_geKey h
      have ihb := ih b
      have hres : selectPass a (b :: rest) =
          ((selectPass b rest).1, a :: (selectPass b rest).2) := by
        simp [selectPass, h]
      rw [hres]
      refine ⟨geKey_trans ihb.1 hba, ?_⟩
      intro x hx
      rcases List.mem_cons.1 hx with rfl | hx
      · exact geKey_trans ihb.1 hba
      · exact ihb.2 x hx
    · have hab : geKey a b := (swapCond_false_iff a b).1 (by simpa using h)
      have iha := ih a
      have hres : selectPass a (b :: rest) =
          ((selectPass a rest).1, b :: (selectPass a rest).2) := by
        simp [selectPass, h]
      rw [hres]
      refine ⟨iha.1, ?_⟩
      intro x hx
      rcases List.mem_cons.1 hx with rfl | hx
      · exact geKey_trans iha.1 hab
      · exact iha.2 x hx

theorem selectPass_perm (l : List IndexEntry) (a : IndexEntry) :
    ((selectPass a l).1 :: (selectPass a l).2).Perm (a :: l) := by
  induction l generalizing a with
  | nil => simp [selectPass]
  | cons b rest ih =>
    by_cases h : swapCond a b = true
    · have hres : selectPass a (b :: rest) =
          ((selectPass b rest).1, a :: (selectPass b rest).2) := by
        simp [selectPass, h]
      rw [hres]
      exact (List.Perm.swap a (selectPass b rest).1 (selectPass b rest).2).trans
        ((ih b).cons a)
    · have hres : selectPass a (b :: rest) =
          ((selectPass a rest).1, b :: (selectPass a rest).2) := by
        simp [selectPass, h]
      rw [hres]
      exact ((List.Perm.swap b (selectPass a rest).1 (selectPass a rest).2).trans
        ((ih a).cons b)).trans (List.Perm.swap a b rest)

theorem exchangeSort_perm_aux :
    ∀ (n : Nat) (l : List IndexEntry), l.length ≤ n →
      (exchangeSort l).Perm l := by
  intro n
  induction n with
  | zero =>
    intro l h
    cases l with
    | nil => simp [exchangeSort]
    | cons a rest => simp at h
  | succ n ih =>
    intro l h
    cases l with
    | nil => simp [exchangeSort]
    | cons a rest =>
      rw [exchangeSort]
      have hr : (selectPass a rest).2.length ≤ n := by
        rw [selectPass_length]
        simp at h
        omega
      exact ((ih _ hr).cons _).trans (selectPass_perm rest a)

theorem exchangeSort_perm (l : List IndexEntry) : (exchangeSort l).Perm l :=
  exchangeSort_perm_aux l.length l le_rfl

theorem exchangeSort_sorted_aux :
    ∀ (n : Nat) (l : List IndexEntry), l.length ≤ n →
      (exchangeSort l).Pairwise geKey := by
  intro n
  induction n with
  | zero =>
    intro l h
    cases l with
    | nil => simp [exchangeSort]
    | cons a rest => simp at h
  | succ n ih =>
    intro l h
    cases l with
    | nil => simp [exchangeSort]
    | cons a rest =>
      rw [exchangeSort]
      have hr : (selectPass a rest).2.length ≤ n := by
        rw [selectPass_length]
        simp at h
        omega
      refine List.Pairwise.cons ?_ (ih _ hr)
      intro y hy
      have hy2 : y ∈ (selectPass a rest).2 :=
        (exchangeSort_perm _).mem_iff.1 hy
      exact (selectPass_spec rest a).2 y hy2

theorem exchangeSort_sorted (l : List IndexEntry) :
    (exchangeSort l).Pairwise geKey :=
  exchangeSort_sorted_aux l.length l le_rfl

/-- Claim C6: `Index.ListEntries` always returns the index entries sorted
by (timestamp descending, sequence descending) — the output is a
permutation of the entries and pairwise ordered by that key — and two
checkpoints added with the same timestamp stay strictly ordered by the
monotonic sequence tiebreak, so `GetLatest` over two same-timestamp
checkpoints returns the one added second. -/
theorem index_ordering :
    (∀ idx : Index,
      (ListEntries idx).Perm idx.entries ∧ (ListEntries idx).Pairwise geKey) ∧
    (∀ (n : Nat) (m1 m2 : Manifest), m1.timestamp = m2.timestamp →
      m1.id ≠ m2.id →
      getLatestId (indexAdd (indexAdd { entries := [], nextSequence := n } m1) m2) =
        some m2.id) := by
  constructor
  · intro idx
    exact ⟨exchangeSort_perm idx.entries, exchangeSort_sorted idx.entries⟩
  · intro n m1 m2 hts hid
    simp [indexAdd, getLatestId, ListEntries, exchangeSort, selectPass,
      swapCond, hts, hid]

/-- Witness for C6: two concrete manifests with equal timestamps; the
one added second wins `GetLatest` through its larger sequence. -/
theorem index_ordering_witness :
    getLatestId (indexAdd (indexAdd { entries := [], nextSequence := 0 }
      exManifest) { exManifest with id := "cp2" }) = some "cp2" :=
  index_ordering.2 0 exManifest { exManifest with id := "cp2" } rfl
    (by decide)

/-! ### Claim C8 -/

theorem tarOf_name (pe : String × TreeEntry) : (tarOf pe).name = pe.1 := by
  cases pe with
  | mk p e => cases e <;> rfl

theorem extract_skip (archive : List TarItem)
    (acc : String → Option TreeEntry) (p : String)
    (h : ∀ it ∈ archive, it.name ≠ p) :
    (archive.foldl extractStep acc) p = acc p := by
  induction archive generalizing acc with
  | nil => rfl
  | cons it rest ih =>
    rw [List.foldl_cons]
    rw [ih _ (fun x hx => h x (List.mem_cons_of_mem it hx))]
    unfold extractStep
    rw [if_neg]
    exact fun hc => h it (List.mem_cons_self it rest) (hc ▸ rfl)

/-- Point update of an extracted tree. -/
def updT (q : String) (v : Option TreeEntry)
    (acc : String → Option TreeEntry) : String → Option TreeEntry :=
  fun x => if x = q then v else acc x

theorem extractStep_updT (q : String) (v : Option TreeEntry)
    (acc : String → Option TreeEntry) (it : TarItem) (hq : it.name ≠ q) :
    extractStep (updT q v acc) it = updT q v (extractStep acc it) := by
  funext x
  unfold extractStep updT
  by_cases hx : x = it.name
  · subst hx
    by_cases hd : it.isDirFlag
    · simp [hd, hq]
    · simp [hd, hq]
  · by_cases hxq : x = q
    · have hq2 : q ≠ it.name := fun hc => hq hc.symm
      simp [hx, hxq, hq2]
    · simp [hx, hxq]

theorem extract_updT (archive : List TarItem) (q : String)
    (v : Option TreeEntry) (acc : String → Option TreeEntry)
    (hq : ∀ it ∈ archive, it.name ≠ q) (p : String) (hp : p ≠ q) :
    (archive.foldl extractStep (updT q v acc)) p =
      (archive.foldl extractStep acc) p := by
  induction archive generalizing acc with
  | nil => simp [updT, hp]
  | cons it rest ih =>
    rw [List.foldl_cons, List.foldl_cons,
      extractStep_updT q v acc it (hq it (List.mem_cons_self it rest))]
    exact ih _ (fun x hx => hq x (List.mem_cons_of_mem it hx))

theorem extractStep_empty (pe : String × TreeEntry) :
    extractStep (fun _ => none) (tarOf pe) =
      updT pe.1 (some pe.2) (fun _ => none) := by
  funext x
  cases pe with
  | mk p e =>
    unfold extractStep updT
    cases e <;> simp [tarOf]

/-- Claim C8: compressing a checkpoint's file tree and then decompressing
the archive reproduces a tree identical to the one before compression —
for every relative path, the extracted entry (kind, mode bits, and file
content, hence size) equals the original walk entry. -/
theorem compress_decompress_roundtrip (tree : List (String × TreeEntry))
    (hnd : (tree.map (·.1)).Nodup) (p : String) :
    DecompressDir (CompressDir tree) p = lookupTree tree p := by
  induction tree with
  | nil => rfl
  | cons pe t ih =>
    have hnd2 : (t.map (·.1)).Nodup := (List.nodup_cons.1 hnd).2
    have hq : pe.1 ∉ t.map (·.1) := (List.nodup_cons.1 hnd).1
    have hnames : ∀ it ∈ CompressDir t, it.name ≠ pe.1 := by
      intro it hit hc
      obtain ⟨qe, hqe, rfl⟩ := List.mem_map.1 hit
      rw [tarOf_name] at hc
      exact hq (hc ▸ List.mem_map_of_mem (·.1) hqe)
    have hcc : CompressDir (pe :: t) = tarOf pe :: CompressDir t := rfl
    unfold DecompressDir
    rw [hcc, List.foldl_cons, extractStep_empty]
    by_cases hp : p = pe.1
    · subst hp
      rw [extract_skip (CompressDir t) _ pe.1 hnames]
      simp [updT, lookupTree]
    · rw [extract_updT (CompressDir t) pe.1 (some pe.2) _ hnames p hp]
      have hih := ih hnd2
      unfold DecompressDir at hih
      rw [hih]
      unfold lookupTree
      rw [List.find?_cons_of_neg _
        (by simpa using fun hc : pe.1 = p => hp hc.symm)]

/-- Witness for C8 at a concrete two-entry tree (a directory and a file
inside it). -/
theorem compress_decompress_roundtrip_witness :
    DecompressDir (CompressDir
      [("w", TreeEntry.dirE 493), ("w/a.txt", TreeEntry.fileE 420 [104, 105])])
      "w/a.txt" =
      lookupTree
        [("w", TreeEntry.dirE 493), ("w/a.txt", TreeEntry.fileE 420 [104, 105])]
        "w/a.txt" :=
  compress_decompress_roundtrip _ (by decide) "w/a.txt"

/-! ### Claim C7 -/

/-- Archive holding the example backup (the checkpoint is compressed). -/
def exArchive : FS := fun p =>
  if p = "/cp/files/w/a.txt" then some exFile else none

/-- Disk of the compressed example checkpoint: the live file is intact
and unchanged, but the backup tree exists only inside the archive. -/
def exDiskC : FS := fun p => if p = "/w/a.txt" then some exFile else none

/-- Compressed example checkpoint state. -/
def exStateC : CpState :=
  { disk := exDiskC, archive := exArchive,
    manifest := { exManifest with compressed := true } }

/-- Counterexample to C7: on a concrete compressed checkpoint the diff
command reads `backupPath` values directly from disk without
decompressing — it reports the (actually unchanged) file as modified,
while analyzing after decompression reports unchanged; so Diff does not
decompress before touching `backupPath`. -/
theorem diff_reads_compressed_backup :
    runDiffModel exStateC ≠ runDiffModel (ensureDecompressed exStateC) ∧
    (runDiffModel exStateC).map (·.status) = [DiffStatus.modified] ∧
    (runDiffModel (ensureDecompressed exStateC)).map (·.status) =
      [DiffStatus.unchanged] := by
  refine ⟨?_, ?_, ?_⟩
  · decide
  · decide
  · decide

/-- Claim C7 (amended): the four rollback variants decompress the
archive (via EnsureDecompressed) before touching any backupPath — their
behavior on a compressed checkpoint is identical to first decompressing
and then operating — but the diff command does not: it reads backupPath
values from the still-archived state (see the counterexample). -/
theorem rollback_variants_decompress_first (s : CpState)
    (hc : s.manifest.compressed = true) :
    (s.manifest.rolledBack = false →
      Rollback s = Rollback (decompressState s)) ∧
    (s.manifest.rolledBack = false → ∀ ps,
      RollbackSelective s ps = RollbackSelective (decompressState s) ps) ∧
    (∀ d, RollbackToPath s d = RollbackToPath (decompressState s) d) ∧
    (∀ ps d, RollbackSelectiveToPath s ps d =
      RollbackSelectiveToPath (decompressState s) ps d) := by
  refine ⟨?_, ?_, ?_, ?_⟩
  · intro hrb
    simp [Rollback, ensureDecompressed, decompressState, hc, hrb]
  · intro hrb ps
    simp [RollbackSelective, ensureDecompressed, decompressState, hc, hrb]
  · intro d
    simp [RollbackToPath, ensureDecompressed, decompressState, hc]
  · intro ps d
    simp [RollbackSelectiveToPath, ensureDecompressed, decompressState, hc]

/-- Witness for the amended C7 at the concrete compressed state. -/
theorem rollback_variants_decompress_first_witness :
    Rollback exStateC = Rollback (decompressState exStateC) ∧
    RollbackToPath exStateC "/alt" =
      RollbackToPath (decompressState exStateC) "/alt" :=
  ⟨(rollback_variants_decompress_first exStateC rfl).1 rfl,
   (rollback_variants_decompress_first exStateC rfl).2.2.1 "/alt"⟩

/-! ### Claim C4 -/

/-- A target whose `os.Stat` fails with a non-NotExist error. -/
def tErr : Target := { stat := .statErr, backupOk := true, entries := [] }

/-- A healthy target. -/
def tGood : Target := { stat := .okTarget, backupOk := true, entries := [exEntry] }

/-- Counterexample to C4: in `Create`, a stat failure on one target path
aborts the whole call — the remaining targets are never processed and no
manifest is produced — contradicting the claim that a failed stat is
merely counted and reported without aborting the batch. -/
theorem create_aborts_on_stat_error :
    createModel true true [tErr, tGood] = Except.error CreateErr.statFailed ∧
    ∀ es : List FileEntry, createModel true true [tErr, tGood] ≠ Except.ok es :=
  ⟨rfl, fun es h => Except.noConfusion
    (show Except.error CreateErr.statFailed =
      (Except.ok es : Except CreateErr (List FileEntry)) from h)⟩

theorem rollbackLoopAux_counts (keep : FileEntry → Bool) :
    ∀ (entries : List FileEntry) (disk : FS) (r f : Nat),
      (rollbackLoopAux keep entries (disk, r, f)).2.1 +
        (rollbackLoopAux keep entries (disk, r, f)).2.2 =
        r + f + (entries.filter (fun e => !e.isDir && keep e)).length := by
  intro entries
  induction entries with
  | nil => intro disk r f; simp [rollbackLoopAux]
  | cons e rest ih =>
    intro disk r f
    by_cases hd : e.isDir
    · simp only [rollbackLoopAux, hd, if_true]
      rw [ih]
      simp [hd]
    · by_cases hk : keep e = true
      · simp only [rollbackLoopAux, hd, if_false, hk, if_true, Bool.false_eq_true]
        by_cases hs : (restoreStep disk e.backupPath e.originalPath e.mode).2 = true
        · rw [if_pos hs, ih]
          simp [hd, hk]
          omega
        · rw [if_neg hs, ih]
          simp [hd, hk]
          omega
      · simp only [rollbackLoopAux, hd, if_false, hk, Bool.false_eq_true]
        rw [ih]
        simp [hd, hk]

theorem processTargets_ok (ts : List Target)
    (h : ∀ t ∈ ts, t.stat ≠ StatRes.statErr) :
    ∃ es, processTargets ts = Except.ok es := by
  induction ts with
  | nil => exact ⟨[], rfl⟩
  | cons t rest ih =>
    have hrest := ih (fun x hx => h x (List.mem_cons_of_mem t hx))
    obtain ⟨es, hes⟩ := hrest
    cases hstat : t.stat with
    | missing => exact ⟨es, by simp [processTargets, hstat, hes]⟩
    | statErr => exact absurd hstat (h t (List.mem_cons_self t rest))
    | okTarget =>
      by_cases hb : t.backupOk = true
      · exact ⟨t.entries ++ es, by simp [processTargets, hstat, hb, hes]⟩
      · exact ⟨es, by simp [processTargets, hstat, hb, hes]⟩

theorem processTargets_statErr (ts : List Target)
    (h : ∀ x ∈ ts, x.stat ≠ StatRes.statErr) (t : Target)
    (ht : t.stat = StatRes.statErr) (ts2 : List Target) :
    processTargets (ts ++ t :: ts2) = Except.error CreateErr.statFailed := by
  induction ts with
  | nil => simp [processTargets, ht]
  | cons x rest ih =>
    have hrest := ih (fun y hy => h y (List.mem_cons_of_mem x hy))
    cases hstat : x.stat with
    | missing => simpa [processTargets, hstat] using hrest
    | statErr => exact absurd hstat (h x (List.mem_cons_self x rest))
    | okTarget =>
      by_cases hb : x.backupOk = true
      · simp [processTargets, hstat, hb, hrest]
      · simpa [processTargets, hstat, hb] using hrest

/-- Claim C4 (amended): during the rollback restore loop every
non-directory selected entry is processed and counted — restored plus
failed always equals the number of such entries, no per-file failure
aborts the loop.  In `Create`, a missing target path is skipped silently,
a target whose backup fails is skipped with a warning, and when no target
stat fails the per-target loop always succeeds; setup failures (cannot
create the checkpoint directory, cannot persist the manifest) abort the
call — but, contrary to the original claim, so does a stat failure on a
single target (see the counterexample). -/
theorem failure_isolation_amended :
    (∀ (keep : FileEntry → Bool) (disk : FS) (entries : List FileEntry),
      (rollbackLoopAux keep entries (disk, 0, 0)).2.1 +
        (rollbackLoopAux keep entries (disk, 0, 0)).2.2 =
        (entries.filter (fun e => !e.isDir && keep e)).length) ∧
    (∀ (t : Target) (ts : List Target), t.stat = StatRes.missing →
      processTargets (t :: ts) = processTargets ts) ∧
    (∀ (t : Target) (ts : List Target), t.stat = StatRes.okTarget →
      t.backupOk = false → processTargets (t :: ts) = processTargets ts) ∧
    (∀ ts : List Target, (∀ t ∈ ts, t.stat ≠ StatRes.statErr) →
      ∃ es, createModel true true ts = Except.ok es) ∧
    (∀ (ts ts2 : List Target) (t : Target),
      (∀ x ∈ ts, x.stat ≠ StatRes.statErr) → t.stat = StatRes.statErr →
      createModel true true (ts ++ t :: ts2) = Except.error CreateErr.statFailed) ∧
    (∀ ts : List Target, createModel false true ts =
      Except.error CreateErr.mkdirFailed) ∧
    (∀ (ts : List Target) (es : List FileEntry),
      processTargets ts = Except.ok es →
      createModel true false ts = Except.error CreateErr.saveFailed) := by
  refine ⟨?_, ?_, ?_, ?_, ?_, ?_, ?_⟩
  · intro keep disk entries
    simpa using rollbackLoopAux_counts keep entries disk 0 0
  · intro t ts ht
    simp [processTargets, ht]
  · intro t ts ht hb
    simp [processTargets, ht, hb]
  · intro ts h
    obtain ⟨es, hes⟩ := processTargets_ok ts h
    exact ⟨es, by simp [createModel, hes]⟩
  · intro ts ts2 t h ht
    simp [createModel, processTargets_statErr ts h t ht ts2]
  · intro ts
    simp [createModel]
  · intro ts es hes
    simp [createModel, hes]

/-- Witness for the amended C4 at concrete inputs. -/
theorem failure_isolation_amended_witness :
    (rollbackLoopAux (fun _ => true) [exEntry] (exDisk, 0, 0)).2.1 +
      (rollbackLoopAux (fun _ => true) [exEntry] (exDisk, 0, 0)).2.2 = 1 ∧
    processTargets [{ stat := StatRes.missing, backupOk := true, entries := [] },
      tGood] = processTargets [tGood] ∧
    createModel true true [tGood, tErr] = Except.error CreateErr.statFailed :=
  ⟨by
    have h := failure_isolation_amended.1 (fun _ => true) exDisk [exEntry]
    simpa [exEntry] using h,
   failure_isolation_amended.2.1 _ [tGood] rfl,
   failure_isolation_amended.2.2.2.2.1 [tGood] [] tErr (by decide) rfl⟩

/-! ### Claim C3 -/

mutual

theorem manifestWalk_sub_allPaths (pre : String) (n : FsNode) :
    ∀ e ∈ manifestWalk pre n, e.originalPath ∈ allPaths pre n := by
  intro e he
  cases n with
  | linkN name =>
    simp [manifestWalk] at he
    simp [allPaths, he]
  | fileN name m sz =>
    simp [manifestWalk] at he
    simp [allPaths, he]
  | dirN name m children =>
    have h := manifestWalkList_sub_allPaths (joinPath pre name) children e
      (by simpa [manifestWalk] using he)
    simp [allPaths]
    exact Or.inr h

theorem manifestWalkList_sub_allPaths (pre : String) (l : List FsNode) :
    ∀ e ∈ manifestWalkList pre l, e.originalPath ∈ allPathsList pre l := by
  intro e he
  cases l with
  | nil => simp [manifestWalkList] at he
  | cons c cs =>
    rcases List.mem_append.1 (by simpa [manifestWalkList] using he) with h | h
    · exact List.mem_append.2 (Or.inl (manifestWalk_sub_allPaths pre c e h))
    · exact List.mem_append.2 (Or.inr (manifestWalkList_sub_allPaths pre cs e h))

end

mutual

theorem manifestWalk_cover (pre : String) (n : FsNode) :
    ∀ e ∈ manifestWalk pre n,
      e.backupPath ∈ backupWalk pre n ∨
        e.originalPath ∈ classifierSkipped pre n := by
  intro e he
  cases n with
  | linkN name =>
    simp [manifestWalk] at he
    exact Or.inr (by simp [classifierSkipped, he])
  | fileN name m sz =>
    simp [manifestWalk] at he
    by_cases hex : shouldExclude name = true
    · exact Or.inr (by simp [classifierSkipped, hex, he])
    · exact Or.inl (by simp [backupWalk, hex, he])
  | dirN name m children =>
    have he2 : e ∈ manifestWalkList (joinPath pre name) children := by
      simpa [manifestWalk] using he
    by_cases hex : shouldExclude name = true ∨ name.endsWith ".framework" = true
    · refine Or.inr ?_
      have hall := manifestWalkList_sub_allPaths (joinPath pre name) children e he2
      simp only [classifierSkipped, hex, if_true]
      simp [allPaths]
      exact Or.inr hall
    · have hcov := manifestWalkList_cover (joinPath pre name) children e he2
      push_neg at hex
      rcases hcov with h | h
      · exact Or.inl (by
          simp only [backupWalk, hex.1, Bool.false_eq_true, if_false, hex.2]
          exact List.mem_cons_of_mem _ h)
      · exact Or.inr (by
          simp only [classifierSkipped]
          rw [if_neg]
          · exact h
          · simp [hex.1, hex.2])

theorem manifestWalkList_cover (pre : String) (l : List FsNode) :
    ∀ e ∈ manifestWalkList pre l,
      e.backupPath ∈ backupWalkList pre l ∨
        e.originalPath ∈ classifierSkippedList pre l := by
  intro e he
  cases l with
  | nil => simp [manifestWalkList] at he
  | cons c cs =>
    rcases List.mem_append.1 (by simpa [manifestWalkList] using he) with h | h
    · rcases manifestWalk_cover pre c e h with h2 | h2
      · exact Or.inl (List.mem_append.2 (Or.inl h2))
      · exact Or.inr (List.mem_append.2 (Or.inl h2))
    · rcases manifestWalkList_cover pre cs e h with h2 | h2
      · exact Or.inl (List.mem_append.2 (Or.inr h2))
      · exact Or.inr (List.mem_append.2 (Or.inr h2))

end

/-- The manifest entries `Create` records for one directory target named
`name` with the given children: the directory's own entry (added after
`BackupDir` returns) followed by one entry per non-directory node found
by the unfiltered `filepath.Walk` (checkpoint.go lines 95-106). -/
def createDirEntries (name : String) (mode : Nat)
    (children : List FsNode) : List FileEntry :=
  { originalPath := joinPath "" name, backupPath := joinPath "" name,
    mode := mode, size := 0, isDir := true } ::
    manifestWalk "" (.dirN name mode children)

/-- The children of the Scenario E example directory: a `.git` subtree,
a `node_modules` subtree, a symlink, and one ordinary file. -/
def exChildren : List FsNode :=
  [.dirN ".git" 493 [.fileN "config" 420 6],
   .dirN "node_modules" 493 [.fileN "index.js" 420 5],
   .linkN "link",
   .fileN "a.txt" 420 2]

/-- Counterexample to C3: for the Scenario E directory, the contents of
`.git` and `node_modules` and the symlink do NOT appear in the backup
tree, but they DO appear in the manifest recorded by `Create` — the
manifest walk does not consult the classifier — so the claim that none
of their contents appear in the resulting manifest is false. -/
theorem create_manifest_contains_excluded :
    "proj/.git/config" ∈
      (createDirEntries "proj" 493 exChildren).map (·.originalPath) ∧
    "proj/link" ∈
      (createDirEntries "proj" 493 exChildren).map (·.originalPath) ∧
    "proj/.git/config" ∉ backupWalk "" (.dirN "proj" 493 exChildren) := by
  refine ⟨?_, ?_, ?_⟩ <;> decide

/-- Claim C3 (amended): after `Create` over a directory, every recorded
FileEntry's backupPath exists in the backup tree except entries the
classifier skipped (the unused size gate never skips anything); for the
Scenario E directory the backup tree contains exactly the directory
itself and the ordinary file — nothing from `.git` or `node_modules` and
no symlink — but, contrary to the original claim, the skipped files do
appear in the manifest (see the counterexample). -/
theorem backup_completeness_amended :
    (∀ (name : String) (mode : Nat) (children : List FsNode),
      ∀ e ∈ createDirEntries name mode children,
        e.backupPath ∈ backupWalk "" (.dirN name mode children) ∨
          e.originalPath ∈ classifierSkipped "" (.dirN name mode children)) ∧
    backupWalk "" (.dirN "proj" 493 exChildren) = ["proj", "proj/a.txt"] := by
  constructor
  · intro name mode children e he
    rcases List.mem_cons.1 he with rfl | he2
    · by_cases hex : shouldExclude name = true ∨ name.endsWith ".framework" = true
      · refine Or.inr ?_
        simp only [classifierSkipped, hex, if_true]
        simp [allPaths]
      · push_neg at hex
        refine Or.inl ?_
        simp only [backupWalk, hex.1, Bool.false_eq_true, if_false, hex.2]
        exact List.mem_cons_self _ _
    · exact manifestWalk_cover "" (.dirN name mode children) e he2
  · decide

/-- Witness for the amended C3 at the Scenario E tree: the `.git/config`
entry recorded in the manifest is covered by the classifier-skipped
branch. -/
theorem backup_completeness_amended_witness :
    ({ originalPath := "proj/.git/config", backupPath := "proj/.git/config",
       mode := 420, size := 6, isDir := false } : FileEntry) ∈
        createDirEntries "proj" 493 exChildren ∧
    ("proj/.git/config" ∈ backupWalk "" (.dirN "proj" 493 exChildren) ∨
      "proj/.git/config" ∈ classifierSkipped "" (.dirN "proj" 493 exChildren)) :=
  ⟨by decide,
   backup_completeness_amended.1 "proj" 493 exChildren
     { originalPath := "proj/.git/config", backupPath := "proj/.git/config",
       mode := 420, size := 6, isDir := false } (by decide)⟩

/-! ### Claim C1 -/

theorem copyFile_fresh (fs : FS) (src dst : String) (f : File) (fs2 : FS)
    (hsrc : fs src = some f) (hne : src ≠ dst) (hdst : fs dst = none)
    (h : copyFile fs src dst = some fs2) :
    fs2 = upd fs dst (some { content := f.content, mode := f.mode }) := by
  unfold copyFile at h
  simp only [hsrc] at h
  rw [if_neg hne] at h
  simp only [hdst] at h
  exact (Option.some.inj h).symm

theorem restoreStep_pres (d : FS) (bp target : String) (mode : Nat)
    (p : String) (hp : p ≠ target) :
    ((restoreStep d bp target mode).1) p = d p := by
  unfold restoreStep RestoreFile
  by_cases hb : d bp = none
  · simp [hb]
  · rw [if_neg hb]
    by_cases hb2 : (upd d target none) bp = none
    · simp only [hb2]
      simp [upd, hp]
    · obtain ⟨f, hf⟩ := Option.ne_none_iff_exists'.1 hb2
      simp only [hf]
      simp [chmod, upd, hp]

theorem restoreStep_hit (d : FS) (bp op : String) (mode : Nat) (f : File)
    (hb : d bp = some f) (hne : bp ≠ op) :
    ((restoreStep d bp op mode).1) op = some { content := f.content, mode := mode } ∧
      (restoreStep d bp op mode).2 = true := by
  unfold restoreStep RestoreFile
  have h1 : d bp ≠ none := by simp [hb]
  rw [if_neg h1]
  have h2 : (upd d op none) bp = some f := by
    simp [upd, hne, hb]
  simp only [h2]
  simp [chmod, upd]

theorem rollbackLoopAux_append (keep : FileEntry → Bool)
    (xs ys : List FileEntry) :
    ∀ st : FS × Nat × Nat,
      rollbackLoopAux keep (xs ++ ys) st =
        rollbackLoopAux keep ys (rollbackLoopAux keep xs st) := by
  induction xs with
  | nil => intro st; rfl
  | cons x rest ih =>
    intro st
    by_cases hd : x.isDir = true
    · simp only [List.cons_append, rollbackLoopAux, hd, if_true]
      exact ih _
    · by_cases hk : keep x = true
      · simp only [List.cons_append, rollbackLoopAux, hd, Bool.false_eq_true,
          if_false, hk, if_true]
        exact ih _
      · simp only [List.cons_append, rollbackLoopAux, hd, Bool.false_eq_true,
          if_false, hk]
        exact ih _

theorem rollbackLoopAux_cons_succ (keep : FileEntry → Bool) (e : FileEntry)
    (l2 : List FileEntry) (st : FS × Nat × Nat) (hdf : e.isDir = false)
    (hk : keep e = true)
    (hs : (restoreStep st.1 e.backupPath e.originalPath e.mode).2 = true) :
    rollbackLoopAux keep (e :: l2) st =
      rollbackLoopAux keep l2
        ((restoreStep st.1 e.backupPath e.originalPath e.mode).1,
          st.2.1 + 1, st.2.2) := by
  simp [rollbackLoopAux, hdf, hk, hs]

theorem rollbackLoopAux_pres (keep : FileEntry → Bool) :
    ∀ (entries : List FileEntry) (st : FS × Nat × Nat) (p : String),
      (∀ e ∈ entries, e.isDir = false → e.originalPath ≠ p) →
      ((rollbackLoopAux keep entries st).1) p = st.1 p := by
  intro entries
  induction entries with
  | nil => intro st p h; rfl
  | cons e rest ih =>
    intro st p h
    have hrest : ∀ x ∈ rest, x.isDir = false → x.originalPath ≠ p :=
      fun x hx => h x (List.mem_cons_of_mem e hx)
    by_cases hd : e.isDir = true
    · simp only [rollbackLoopAux, hd, if_true]
      exact ih st p hrest
    · have hdf : e.isDir = false := by
        cases hb : e.isDir
        · rfl
        · exact absurd hb hd
      have hop : e.originalPath ≠ p := h e (List.mem_cons_self e rest) hdf
      by_cases hk : keep e = true
      · simp only [rollbackLoopAux, hd, Bool.false_eq_true, if_false, hk,
          if_true]
        by_cases hs : (restoreStep st.1 e.backupPath e.originalPath e.mode).2 = true
        · rw [if_pos hs, ih _ p hrest]
          exact restoreStep_pres st.1 e.backupPath e.originalPath e.mode p
            (fun hc => hop hc.symm)
        · rw [if_neg hs, ih _ p hrest]
          exact restoreStep_pres st.1 e.backupPath e.originalPath e.mode p
            (fun hc => hop hc.symm)
      · simp only [rollbackLoopAux, hd, Bool.false_eq_true, if_false, hk]
        exact ih st p hrest

/-- Claim C1: backing up a file and later restoring it through a full
Rollback reproduces the original exactly.  First conjunct: a successful
`BackupFile` to a fresh destination leaves the backup holding exactly
the source's bytes and mode (hard link or copy alike) and does not
disturb the source.  Second conjunct: for any checkpoint entry whose
backup is intact (equal to the file that was backed up, with the mode
`Create` recorded from stat), a full Rollback puts exactly that file —
bytes and mode — back at the original path, also when other entries are
restored in the same pass. -/
theorem checkpoint_roundtrip :
    (∀ (linkOk : Bool) (fs : FS) (src dst : String) (fs2 : FS),
      src ≠ dst → fs dst = none →
      BackupFile linkOk fs src dst = some fs2 →
      fs2 dst = fs src ∧ fs2 src = fs src) ∧
    (∀ (s : CpState) (e : FileEntry) (f : File),
      s.manifest.rolledBack = false →
      s.manifest.compressed = false →
      e ∈ s.manifest.files →
      e.isDir = false →
      s.disk e.backupPath = some f →
      e.mode = f.mode →
      ((s.manifest.files.filter (fun x => !x.isDir)).map (·.originalPath)).Nodup →
      (∀ x ∈ s.manifest.files, x.originalPath ≠ e.backupPath) →
      ((Rollback s).1).disk e.originalPath = some f) := by
  constructor
  · intro linkOk fs src dst fs2 hne hdst hb
    unfold BackupFile at hb
    cases hsrc : fs src with
    | none =>
      rw [hsrc] at hb
      exact absurd hb (by simp)
    | some f =>
      have hb2 : (if linkOk = true ∧ fs dst = none then some (upd fs dst (some f))
          else copyFile fs src dst) = some fs2 := by
        rw [← hb]
        simp [hsrc]
      by_cases hl : linkOk = true ∧ fs dst = none
      · rw [if_pos hl] at hb2
        have hfs2 : fs2 = upd fs dst (some f) := (Option.some.inj hb2).symm
        subst hfs2
        constructor
        · simp [upd]
        · simp [upd, hne, hsrc]
      · rw [if_neg hl] at hb2
        have hfs2 := copyFile_fresh fs src dst f fs2 hsrc hne hdst hb2
        subst hfs2
        constructor
        · simp [upd]
        · simp [upd, hne, hsrc]
  · intro s e f hrb hc hmem hdf hbk hmode hnd hnob
    obtain ⟨l1, l2, hsplit⟩ := List.append_of_mem hmem
    have hs1 : ensureDecompressed s = s := by simp [ensureDecompressed, hc]
    have hR : ((Rollback s).1).disk =
        (rollbackLoopAux (fun _ => true) s.manifest.files (s.disk, 0, 0)).1 := by
      simp [Rollback, hrb, hs1]
    rw [hR, hsplit, rollbackLoopAux_append]
    have hno1 : ∀ x ∈ l1, x.isDir = false → x.originalPath ≠ e.backupPath := by
      intro x hx _
      exact hnob x (hsplit ▸ List.mem_append_left _ hx)
    have hbk1 :
        (rollbackLoopAux (fun _ => true) l1 (s.disk, 0, 0)).1 e.backupPath =
          some f := by
      rw [rollbackLoopAux_pres _ l1 _ _ hno1]
      exact hbk
    have hbne : e.backupPath ≠ e.originalPath :=
      fun hc2 => hnob e hmem hc2.symm
    have hhit := restoreStep_hit
      (rollbackLoopAux (fun _ => true) l1 (s.disk, 0, 0)).1
      e.backupPath e.originalPath e.mode f hbk1 hbne
    rw [rollbackLoopAux_cons_succ (fun _ => true) e l2
      (rollbackLoopAux (fun _ => true) l1 (s.disk, 0, 0)) hdf rfl hhit.2]
    have hfil : s.manifest.files.filter (fun x => !x.isDir) =
        l1.filter (fun x => !x.isDir) ++ e :: l2.filter (fun x => !x.isDir) := by
      rw [hsplit, List.filter_append, List.filter_cons_of_pos (by simp [hdf])]
    rw [hfil, List.map_append, List.map_cons] at hnd
    have hnotmem : e.originalPath ∉
        (l2.filter (fun x => !x.isDir)).map (·.originalPath) :=
      (List.nodup_cons.1 hnd.of_append_right).1
    have hno2 : ∀ x ∈ l2, x.isDir = false → x.originalPath ≠ e.originalPath := by
      intro x hx hxd hceq
      exact hnotmem (hceq ▸
        List.mem_map_of_mem _ (List.mem_filter.2 ⟨hx, by simp [hxd]⟩))
    rw [rollbackLoopAux_pres _ l2 _ _ hno2]
    rw [hhit.1, hmode]

/-- Source-only example filesystem (before any backup). -/
def exSrcOnly : FS := fun p => if p = "/w/a.txt" then some exFile else none

/-- The example filesystem after linking the backup. -/
def exAfterBackup : FS := upd exSrcOnly "/cp/files/w/a.txt" (some exFile)

/-- Witness for C1: the concrete example checkpoint — a backup of the
two-byte file — restores that exact file (content and mode) at the
original path; plus the BackupFile conjunct at a concrete filesystem. -/
theorem checkpoint_roundtrip_witness :
    (exAfterBackup "/cp/files/w/a.txt" = exSrcOnly "/w/a.txt" ∧
      exAfterBackup "/w/a.txt" = exSrcOnly "/w/a.txt") ∧
    ((Rollback exState).1).disk "/w/a.txt" = some exFile := by
  constructor
  · exact checkpoint_roundtrip.1 true exSrcOnly "/w/a.txt" "/cp/files/w/a.txt"
      exAfterBackup (by decide) rfl rfl
  · exact checkpoint_roundtrip.2 exState exEntry exFile rfl rfl
      (by simp [exState, exManifest]) rfl rfl rfl
      (by simp [exState, exManifest, exEntry]) (by
        intro x hx
        simp [exState, exManifest] at hx
        subst hx
        decide)

end SafeShell
